import Mathlib

/-!
Verification of the car-rental booking core (`server/storage.ts`,
`server/routes.ts`, client `lib/data.ts`, `pages/Dashboard.tsx`).

The store keeps vehicles and bookings in in-memory maps keyed by id
(iteration in insertion order, modelled as lists).  Dates travel as
`"yyyy-MM-dd"` strings; the code parses them with date-fns `parseISO`,
compares the resulting timestamps, and formats with
`format(d, "yyyy-MM-dd")`.  We model a parsed date as a civil-calendar
triple `CivilDate`; for valid civil dates, timestamp order coincides with
lexicographic order on `(y, m, d)`, which is what `dateLtB`/`dateLeB`
implement.  JavaScript string comparison (`<` on code units, used by
`updateExpiredBookings` on raw date strings) is modelled by `strLt`.
-/

/-- A calendar date `y-m-d` as produced by parsing a `"yyyy-MM-dd"` string. -/
structure CivilDate where
  y : Nat
  m : Nat
  d : Nat
deriving Repr, DecidableEq

/-- Gregorian leap-year rule (as used by the JS `Date` the code relies on). -/
def isLeap (y : Nat) : Bool :=
  (y % 4 == 0 && y % 100 != 0) || y % 400 == 0

/-- Number of days in month `m` of year `y`. -/
def daysInMonth (y m : Nat) : Nat :=
  if m == 2 then (if isLeap y then 29 else 28)
  else if m == 4 || m == 6 || m == 9 || m == 11 then 30
  else 31

/-- The triple denotes an actual calendar date. -/
def CivilDate.validB (e : CivilDate) : Bool :=
  1 ≤ e.m && e.m ≤ 12 && 1 ≤ e.d && e.d ≤ daysInMonth e.y e.m

/-- Chronological strict order of parsed dates (timestamp comparison of
`parseISO` results): lexicographic on `(y, m, d)`. -/
def dateLtB (a b : CivilDate) : Bool :=
  if a.y < b.y then true
  else if b.y < a.y then false
  else if a.m < b.m then true
  else if b.m < a.m then false
  else decide (a.d < b.d)

/-- Chronological non-strict order of parsed dates. -/
def dateLeB (a b : CivilDate) : Bool :=
  if a.y < b.y then true
  else if b.y < a.y then false
  else if a.m < b.m then true
  else if b.m < a.m then false
  else decide (a.d ≤ b.d)

/-- date-fns `addDays(d, 1)`: the following calendar day. -/
def nextDay (e : CivilDate) : CivilDate :=
  if e.d < daysInMonth e.y e.m then ⟨e.y, e.m, e.d + 1⟩
  else if e.m < 12 then ⟨e.y, e.m + 1, 1⟩
  else ⟨e.y + 1, 1, 1⟩

/-- JS string comparison (`<`) on code units, on the underlying char lists. -/
def strLtAux : List Char → List Char → Bool
  | [], [] => false
  | [], _ :: _ => true
  | _ :: _, [] => false
  | a :: as, b :: bs =>
    if a.toNat < b.toNat then true
    else if b.toNat < a.toNat then false
    else strLtAux as bs

/-- JS string comparison (`<`), as used by `updateExpiredBookings` on raw
`"yyyy-MM-dd"` strings. -/
def strLt (s t : String) : Bool := strLtAux s.data t.data

/-- Numeric value of a decimal digit character. -/
def digitVal (c : Char) : Nat := c.toNat - 48

/-- The character is a decimal digit. -/
def isDigitB (c : Char) : Bool := 48 ≤ c.toNat && c.toNat ≤ 57

/-- Two-character zero-padded decimal rendering (for `n < 100`). -/
def toDigits2 (n : Nat) : List Char := [Nat.digitChar (n / 10), Nat.digitChar (n % 10)]

/-- Four-character zero-padded decimal rendering (for `n < 10000`). -/
def toDigits4 (n : Nat) : List Char := toDigits2 (n / 100) ++ toDigits2 (n % 100)

/-- date-fns `format(d, "yyyy-MM-dd")`. -/
def formatDate (e : CivilDate) : String :=
  ⟨toDigits4 e.y ++ '-' :: (toDigits2 e.m ++ '-' :: toDigits2 e.d)⟩

/-- date-fns `parseISO` restricted to the date-only `"yyyy-MM-dd"` strings this
application stores; anything else is an invalid date (`none`). -/
def parseDateChars : List Char → Option CivilDate
  | [c1, c2, c3, c4, h1, c5, c6, h2, c7, c8] =>
    if h1 == '-' && h2 == '-' && isDigitB c1 && isDigitB c2 && isDigitB c3 &&
        isDigitB c4 && isDigitB c5 && isDigitB c6 && isDigitB c7 && isDigitB c8 then
      let y := digitVal c1 * 1000 + digitVal c2 * 100 + digitVal c3 * 10 + digitVal c4
      let m := digitVal c5 * 10 + digitVal c6
      let d := digitVal c7 * 10 + digitVal c8
      if 1 ≤ m && m ≤ 12 && 1 ≤ d && d ≤ daysInMonth y m then some ⟨y, m, d⟩ else none
    else none
  | _ => none

/-- `parseISO` on a whole string. -/
def parseDate (s : String) : Option CivilDate := parseDateChars s.data

/-! ## Data model (`shared/schema.ts`) -/

/-- A stored vehicle record.  `nextAvailableDate` is the optional transient
field the TS type adds on top of the table row; persisted records created
through `createVehicle` never carry it. -/
structure Vehicle where
  id : String
  model : String
  plate : String
  dailyRate : Int
  transmission : String
  colorHex : String
  status : String
  imageUrl : String
  rateType : String
  nextAvailableDate : Option String := none
deriving Repr, DecidableEq

/-- A stored booking record.  Statuses are plain strings in the schema
(`text` column); the UI additionally uses `"archived"` as a soft-delete. -/
structure Booking where
  id : String
  vehicleId : String
  guestName : String
  guestPhone : String
  startDate : String
  endDate : String
  totalPrice : Int
  status : String
  idVerified : Bool
  idImageUrl : Option String := none
deriving Repr, DecidableEq

/-- The in-memory store (`MemStorage`): two maps in insertion order. -/
structure StorageState where
  vehicles : List Vehicle
  bookings : List Booking
deriving Repr, DecidableEq

/-- `DashboardStats`. -/
structure DashboardStats where
  totalCars : Nat
  rentedToday : Nat
  revenueToday : Int
  monthlyRevenue : Int
deriving Repr, DecidableEq

/-! ## Expiry sweep (`MemStorage.updateExpiredBookings`) -/

/-- One step of the sweep: a confirmed booking whose raw `endDate` string is
JS-`<` the formatted today string becomes completed; all other bookings (and
all other fields) are untouched. -/
def sweepBooking (todayStr : String) (b : Booking) : Booking :=
  if b.status == "confirmed" && strLt b.endDate todayStr then
    { b with status := "completed" }
  else b

/-- `updateExpiredBookings()`: sweep every stored booking. -/
def updateExpired (todayStr : String) (st : StorageState) : StorageState :=
  { st with bookings := st.bookings.map (sweepBooking todayStr) }

/-! ## Availability resolver (`MemStorage.getVehicles`) -/

/-- Both dates of a booking, when they parse. -/
def bookingDates (b : Booking) : Option (CivilDate × CivilDate) :=
  match parseDate b.startDate, parseDate b.endDate with
  | some s, some e => some (s, e)
  | _, _ => none

/-- date-fns `areIntervalsOverlapping(searchInterval, bookingInterval)` with
its default options: the library first rejects an invalid interval — an
unparsable date, or `start > end` on either side — by throwing a
`RangeError`, which `getVehicles` does not catch (modelled as `none`, like
the `isWithinInterval` throw in the stats filter); on well-ordered
intervals it returns the strict overlap `searchStart < bookingEnd &&
bookingStart < searchEnd`. -/
def overlapsSearch (qs qe : CivilDate) (b : Booking) : Option Bool :=
  match bookingDates b with
  | some (bs, be) =>
    if dateLeB qs qe && dateLeB bs be then
      some (dateLtB qs be && dateLtB bs qe)
    else none
  | none => none

/-- `vehicleBookings.some(...)`: short-circuit scan for an overlapping
booking. -/
def anyOverlap (qs qe : CivilDate) : List Booking → Option Bool
  | [] => some false
  | b :: l =>
    match overlapsSearch qs qe b with
    | none => none
    | some true => some true
    | some false => anyOverlap qs qe l

/-- The parsed end dates of a list of bookings (all must parse, as date-fns
`max` over an invalid date would poison the result). -/
def endDates : List Booking → Option (List CivilDate)
  | [] => some []
  | b :: l =>
    match parseDate b.endDate, endDates l with
    | some e, some es => some (e :: es)
    | _, _ => none

/-- date-fns `max` over a list of dates (`none` on the empty list, whose
formatted result would be an invalid-date error). -/
def maxDate : List CivilDate → Option CivilDate
  | [] => none
  | e :: l =>
    match maxDate l with
    | none => some e
    | some m => some (if dateLtB m e then e else m)

/-- The per-vehicle body of `getVehicles`' ranged `map`: maintenance wins;
otherwise this vehicle's bookings with `status !== 'cancelled'` are tested
for strict overlap with the search interval; on overlap the view is
`"booked"` with `nextAvailableDate` one day past the latest end date of that
same filtered booking list. -/
def resolveVehicle (qs qe : CivilDate) (bookings : List Booking) (v : Vehicle) :
    Option Vehicle :=
  if v.status == "maintenance" then some { v with status := "maintenance" }
  else
    let vbs := bookings.filter fun b => b.vehicleId == v.id && b.status != "cancelled"
    match anyOverlap qs qe vbs with
    | none => none
    | some true =>
      match endDates vbs with
      | some es =>
        match maxDate es with
        | some m =>
          some { v with status := "booked",
                        nextAvailableDate := some (formatDate (nextDay m)) }
        | none => none
      | none => none
    | some false => some { v with status := "available" }

/-- `getVehicles(start, end)` with a range: sweep, then resolve every vehicle
against the parsed search interval. -/
def getVehiclesRanged (st : StorageState) (todayStr : String) (qs qe : CivilDate) :
    StorageState × Option (List Vehicle) :=
  let st' := updateExpired todayStr st
  (st', st'.vehicles.mapM (resolveVehicle qs qe st'.bookings))

/-- `getVehicles()` without a range: sweep, then report `"maintenance"` or
`"available"` per vehicle. -/
def getVehiclesNoRange (st : StorageState) (todayStr : String) :
    StorageState × List Vehicle :=
  let st' := updateExpired todayStr st
  (st', st'.vehicles.map fun v =>
    { v with status := if v.status == "maintenance" then "maintenance" else "available" })

/-- `getBookings()`: sweep, then return all bookings. -/
def getBookings (st : StorageState) (todayStr : String) :
    StorageState × List Booking :=
  let st' := updateExpired todayStr st
  (st', st'.bookings)

/-! ## Stats aggregator (`MemStorage.getStats`) -/

/-- The `activeBookings` filter of the server `getStats`: drops cancelled and
completed bookings, then `isWithinInterval(today, {start, end})` inside a
`try`/`catch` — a parse failure or an inverted interval yields `false`. -/
def isActiveToday (today : CivilDate) (b : Booking) : Bool :=
  if b.status == "cancelled" || b.status == "completed" then false
  else
    match parseDate b.startDate, parseDate b.endDate with
    | some s, some e => dateLeB s e && (dateLeB s today && dateLeB today e)
    | _, _ => false

/-- The `monthlyCompletedBookings` filter: completed bookings whose parsed
`endDate` lies within the current calendar month (only `endDate` is parsed;
the `try`/`catch` turns a parse failure into `false`). -/
def isMonthlyCompleted (today : CivilDate) (b : Booking) : Bool :=
  if b.status == "completed" then
    match parseDate b.endDate with
    | some e =>
      dateLeB ⟨today.y, today.m, 1⟩ e &&
        dateLeB e ⟨today.y, today.m, daysInMonth today.y today.m⟩
    | none => false
  else false

/-- `getStats()`: sweep, then aggregate. -/
def getStats (st : StorageState) (today : CivilDate) :
    StorageState × DashboardStats :=
  let st' := updateExpired (formatDate today) st
  let actives := st'.bookings.filter (isActiveToday today)
  let monthly := st'.bookings.filter (isMonthlyCompleted today)
  (st', { totalCars := st'.vehicles.length
          rentedToday := actives.length
          revenueToday := actives.foldl (fun acc b => acc + b.totalPrice) 0
          monthlyRevenue := monthly.foldl (fun acc b => acc + b.totalPrice) 0 })

/-! ## Entity CRUD (`MemStorage`) -/

/-- `InsertVehicle` (schema without `id`; `status` is optional with default
`"available"`). -/
structure InsertVehicle where
  model : String
  plate : String
  dailyRate : Int
  transmission : String
  colorHex : String
  status : Option String := none
  imageUrl : String
  rateType : String
deriving Repr, DecidableEq

/-- `createVehicle`: fresh id (passed in, modelling `randomUUID()`), status
defaulted through JS `vehicle.status || "available"` (absent or empty means
`"available"`), record appended to the map. -/
def createVehicle (st : StorageState) (id : String) (nv : InsertVehicle) :
    StorageState × Vehicle :=
  let status := match nv.status with
    | none => "available"
    | some s => if s == "" then "available" else s
  let v : Vehicle :=
    { id := id, model := nv.model, plate := nv.plate, dailyRate := nv.dailyRate,
      transmission := nv.transmission, colorHex := nv.colorHex, status := status,
      imageUrl := nv.imageUrl, rateType := nv.rateType, nextAvailableDate := none }
  ({ st with vehicles := st.vehicles ++ [v] }, v)

/-- `Partial<Vehicle>` as the set of recognized optional fields (the record
`id` itself is not patched; the insert schema omits it). -/
structure VehiclePatch where
  model : Option String := none
  plate : Option String := none
  dailyRate : Option Int := none
  transmission : Option String := none
  colorHex : Option String := none
  status : Option String := none
  imageUrl : Option String := none
  rateType : Option String := none
  nextAvailableDate : Option String := none
deriving Repr, DecidableEq

/-- The spread `{ ...vehicle, ...updates }`. -/
def applyVehiclePatch (v : Vehicle) (p : VehiclePatch) : Vehicle :=
  { id := v.id
    model := p.model.getD v.model
    plate := p.plate.getD v.plate
    dailyRate := p.dailyRate.getD v.dailyRate
    transmission := p.transmission.getD v.transmission
    colorHex := p.colorHex.getD v.colorHex
    status := p.status.getD v.status
    imageUrl := p.imageUrl.getD v.imageUrl
    rateType := p.rateType.getD v.rateType
    nextAvailableDate := match p.nextAvailableDate with
      | some s => some s
      | none => v.nextAvailableDate }

/-- `updateVehicle`: merge the patch into the stored record, if any; no field
validation of any kind is performed. -/
def updateVehicle (st : StorageState) (id : String) (p : VehiclePatch) :
    StorageState × Option Vehicle :=
  match st.vehicles.find? (fun v => v.id == id) with
  | none => (st, none)
  | some v =>
    let v' := applyVehiclePatch v p
    ({ st with vehicles := st.vehicles.map fun x => if x.id == id then v' else x },
     some v')

/-- `deleteVehicle`: remove the record; result reports whether it existed. -/
def deleteVehicle (st : StorageState) (id : String) : StorageState × Bool :=
  ({ st with vehicles := st.vehicles.filter fun v => v.id != id },
   st.vehicles.any fun v => v.id == id)

/-- `Partial<Booking>` as the set of recognized optional fields. -/
structure BookingPatch where
  vehicleId : Option String := none
  guestName : Option String := none
  guestPhone : Option String := none
  startDate : Option String := none
  endDate : Option String := none
  totalPrice : Option Int := none
  status : Option String := none
  idVerified : Option Bool := none
  idImageUrl : Option (Option String) := none
deriving Repr, DecidableEq

/-- The spread `{ ...booking, ...updates }`. -/
def applyBookingPatch (b : Booking) (p : BookingPatch) : Booking :=
  { id := b.id
    vehicleId := p.vehicleId.getD b.vehicleId
    guestName := p.guestName.getD b.guestName
    guestPhone := p.guestPhone.getD b.guestPhone
    startDate := p.startDate.getD b.startDate
    endDate := p.endDate.getD b.endDate
    totalPrice := p.totalPrice.getD b.totalPrice
    status := p.status.getD b.status
    idVerified := p.idVerified.getD b.idVerified
    idImageUrl := p.idImageUrl.getD b.idImageUrl }

/-- `updateBooking`: merge the patch into the stored record, if any; no field
validation of any kind is performed (in particular no status-enum or price
check). -/
def updateBooking (st : StorageState) (id : String) (p : BookingPatch) :
    StorageState × Option Booking :=
  match st.bookings.find? (fun b => b.id == id) with
  | none => (st, none)
  | some b =>
    let b' := applyBookingPatch b p
    ({ st with bookings := st.bookings.map fun x => if x.id == id then b' else x },
     some b')

/-! ## Customer roll-up (`Dashboard.tsx` / `getCustomers` in `lib/data.ts`) -/

/-- A derived customer-directory entry. -/
structure Customer where
  name : String
  phone : String
  idImageUrl : Option String := none
  totalBookings : Nat
  lastBooking : String
deriving Repr, DecidableEq

/-- Bookings that feed the roll-up: `status` confirmed or completed. -/
def eligibleB (b : Booking) : Bool :=
  b.status == "confirmed" || b.status == "completed"

/-- ASCII whitespace test (the characters JS `trim()` removes that occur in
this data). -/
def isSpaceChar (c : Char) : Bool :=
  c.toNat == 32 || c.toNat == 9 || c.toNat == 10 ||
    c.toNat == 13 || c.toNat == 11 || c.toNat == 12

/-- Drop leading whitespace characters. -/
def dropLeadingSpace : List Char → List Char
  | [] => []
  | c :: l => if isSpaceChar c then dropLeadingSpace l else c :: l

/-- JS `toLowerCase()` on the ASCII range. -/
def lowerChar (c : Char) : Char :=
  if 65 ≤ c.toNat && c.toNat ≤ 90 then Char.ofNat (c.toNat + 32) else c

/-- The grouping key: `guestName.trim().toLowerCase()` (ASCII model). -/
def normKey (s : String) : String :=
  ⟨((dropLeadingSpace ((dropLeadingSpace s.data.reverse).reverse)).map lowerChar)⟩

/-- A fresh directory entry from a first booking. -/
def freshCustomer (b : Booking) : Customer :=
  { name := b.guestName, phone := b.guestPhone, idImageUrl := b.idImageUrl,
    totalBookings := 1, lastBooking := b.startDate }

/-- Folding one more booking into an existing entry: count bumped, latest
name casing, phone and start date taken over, image only if truthy. -/
def bumpCustomer (b : Booking) (c : Customer) : Customer :=
  { name := b.guestName, phone := b.guestPhone,
    idImageUrl := match b.idImageUrl with
      | some s => if s == "" then c.idImageUrl else some s
      | none => c.idImageUrl
    totalBookings := c.totalBookings + 1, lastBooking := b.startDate }

/-- One iteration of the roll-up loop over the `customerMap` (a JS `Map` in
insertion order, modelled as an association list). -/
def rollupStep (m : List (String × Customer)) (b : Booking) :
    List (String × Customer) :=
  if eligibleB b then
    let key := normKey b.guestName
    if m.any fun e => e.1 == key then
      m.map fun e => if e.1 == key then (e.1, bumpCustomer b e.2) else e
    else m ++ [(key, freshCustomer b)]
  else m

/-- The whole roll-up loop. -/
def rollup (bs : List Booking) : List (String × Customer) :=
  bs.foldl rollupStep []

/-- Insertion into a sorted list (comparator-style, as `Array.sort`). -/
def insertBy (le : α → α → Bool) (a : α) : List α → List α
  | [] => [a]
  | b :: l => if le a b then a :: b :: l else b :: insertBy le a l

/-- Insertion sort by a Boolean comparator. -/
def sortBy (le : α → α → Bool) (l : List α) : List α :=
  l.foldr (insertBy le) []

/-- Comparator of the pre-sort: ascending `new Date(startDate).getTime()`
(order among unparsable dates is implementation noise; modelled as kept). -/
def startLe (a b : Booking) : Bool :=
  match parseDate a.startDate, parseDate b.startDate with
  | some x, some y => dateLeB x y
  | _, _ => true

/-- Comparator of the final sort: descending `lastBooking` date. -/
def lastBookingGe (a b : Customer) : Bool :=
  match parseDate a.lastBooking, parseDate b.lastBooking with
  | some x, some y => dateLeB y x
  | _, _ => true

/-- The customer directory: sort bookings by start date, roll up, take the
entries, sort descending by last booking. -/
def customersOf (bs : List Booking) : List Customer :=
  sortBy lastBookingGe ((rollup (sortBy startLe bs)).map Prod.snd)

/-! ## Concrete fixtures used by counterexamples and witnesses -/

/-- A plain available vehicle. -/
def vAvail : Vehicle :=
  { id := "v1"
    model := "Toyota Vios"
    plate := "ABC 1234"
    dailyRate := 1500
    transmission := "auto"
    colorHex := "#3B82F6"
    status := "available"
    imageUrl := "img"
    rateType := "24hr" }

/-- A confirmed booking `2024-03-10 .. 2024-03-15` on `v1`. -/
def bConfirmedMar : Booking :=
  { id := "b1"
    vehicleId := "v1"
    guestName := "Juan dela Cruz"
    guestPhone := "+63 912"
    startDate := "2024-03-10"
    endDate := "2024-03-15"
    totalPrice := 4500
    status := "confirmed"
    idVerified := true }

/-- The same booking soft-deleted. -/
def bArchivedMar : Booking := { bConfirmedMar with status := "archived" }

/-- An archived booking `2024-06-01 .. 2024-06-10` on `v1`. -/
def bArchivedJun : Booking :=
  { bConfirmedMar with id := "b2", startDate := "2024-06-01", endDate := "2024-06-10",
                       status := "archived" }

/-- A confirmed booking `2024-06-01 .. 2024-06-05` on `v1`. -/
def bConfirmedJun : Booking :=
  { bConfirmedMar with id := "b3", startDate := "2024-06-01", endDate := "2024-06-05" }

/-- An archived booking `2024-06-10 .. 2024-06-20` on `v1`. -/
def bArchivedJunLate : Booking :=
  { bConfirmedMar with id := "b4", startDate := "2024-06-10", endDate := "2024-06-20",
                       status := "archived" }

/-! ## Claim C1 — overlap semantics of the availability resolver -/

/-- C1 counterexample.  The claim asserts closed-interval overlap
(`bookingStart <= end AND start <= bookingEnd`, touching endpoints conflict)
over bookings with status outside `{cancelled, archived}`.  The code uses
date-fns' default strict overlap and filters only `cancelled`:
(1) for booking `[2024-03-10, 2024-03-15]` and query `[2024-03-15,
2024-03-20]` the vehicle reports `"available"`, not `"booked"`; and
(2) a lone archived booking does make the vehicle report `"booked"`. -/
theorem c1_counterexample :
    (getVehiclesRanged ⟨[vAvail], [bConfirmedMar]⟩ "2024-03-15"
        ⟨2024, 3, 15⟩ ⟨2024, 3, 20⟩).2 =
      some [{ vAvail with status := "available" }] ∧
    (getVehiclesRanged ⟨[vAvail], [bArchivedMar]⟩ "2024-03-01"
        ⟨2024, 3, 12⟩ ⟨2024, 3, 20⟩).2 =
      some [{ vAvail with status := "booked",
                          nextAvailableDate := some "2024-03-16" }] :=
  ⟨rfl, rfl⟩

/-- A booking strictly overlaps the search range (with its parsed dates). -/
def StrictOverlap (qs qe : CivilDate) (b : Booking) : Prop :=
  ∃ bs be, parseDate b.startDate = some bs ∧ parseDate b.endDate = some be ∧
    dateLtB qs be = true ∧ dateLtB bs qe = true

/-- On a well-ordered search range and a list of bookings whose dates all
parse and are well-ordered, the short-circuit overlap scan succeeds and
decides the existence of a strictly overlapping booking. -/
theorem anyOverlap_eq_some (qs qe : CivilDate) (hq : dateLeB qs qe = true)
    (l : List Booking)
    (hp : ∀ b ∈ l, ∃ bs be, parseDate b.startDate = some bs ∧
      parseDate b.endDate = some be ∧ dateLeB bs be = true) :
    ∃ r, anyOverlap qs qe l = some r ∧ (r = true ↔ ∃ b ∈ l, StrictOverlap qs qe b) := by
  induction l with
  | nil => exact ⟨false, rfl, by simp⟩
  | cons b l ih =>
    obtain ⟨bs, be, hbs, hbe, hord⟩ := hp b (by simp)
    have hov : overlapsSearch qs qe b = some (dateLtB qs be && dateLtB bs qe) := by
      simp [overlapsSearch, bookingDates, hbs, hbe, hq, hord]
    obtain ⟨r, hr, hiff⟩ := ih (fun x hx => hp x (by simp [hx]))
    by_cases hb : (dateLtB qs be && dateLtB bs qe) = true
    · refine ⟨true, ?_, ?_⟩
      · simp [anyOverlap, hov, hb]
      · have h12 : dateLtB qs be = true ∧ dateLtB bs qe = true := by simpa using hb
        simp only [true_iff]
        exact ⟨b, by simp, bs, be, hbs, hbe, h12.1, h12.2⟩
    · have hb' : (dateLtB qs be && dateLtB bs qe) = false := by
        revert hb; cases (dateLtB qs be && dateLtB bs qe) <;> simp
      refine ⟨r, ?_, ?_⟩
      · simp [anyOverlap, hov, hb', hr]
      · rw [hiff]
        constructor
        · rintro ⟨x, hx, hov'⟩
          exact ⟨x, by simp [hx], hov'⟩
        · rintro ⟨x, hx, hov'⟩
          rcases List.mem_cons.mp hx with hxb | hxl
          · exfalso
            subst hxb
            obtain ⟨bs', be', hbs', hbe', h1, h2⟩ := hov'
            rw [hbs] at hbs'
            rw [hbe] at hbe'
            cases Option.some_inj.mp hbs'
            cases Option.some_inj.mp hbe'
            rw [h1, h2] at hb'
            simp at hb'
          · exact ⟨x, hxl, hov'⟩

/-- On bookings whose end dates all parse, collecting the end dates
succeeds, with one date per booking. -/
theorem endDates_eq_some (l : List Booking)
    (hp : ∀ b ∈ l, (parseDate b.endDate).isSome) :
    ∃ es, endDates l = some es ∧ es.length = l.length := by
  induction l with
  | nil => exact ⟨[], rfl, rfl⟩
  | cons b l ih =>
    obtain ⟨e, he⟩ := Option.isSome_iff_exists.mp (hp b (by simp))
    obtain ⟨es, hes, hlen⟩ := ih (fun x hx => hp x (by simp [hx]))
    exact ⟨e :: es, by simp [endDates, he, hes], by simp [hlen]⟩

/-- `maxDate` succeeds on any nonempty list. -/
theorem maxDate_eq_some (es : List CivilDate) (h : es ≠ []) :
    ∃ m, maxDate es = some m := by
  cases es with
  | nil => exact absurd rfl h
  | cons e l =>
    cases hm : maxDate l with
    | none => exact ⟨e, by simp [maxDate, hm]⟩
    | some m => exact ⟨if dateLtB m e then e else m, by simp [maxDate, hm]⟩

/-- C1 (amended): for a well-ordered requested range and a non-maintenance
vehicle whose relevant bookings all have parsable, well-ordered dates
(`startDate <= endDate`), the resolver reports `"booked"` iff some booking
of the vehicle with status other than `"cancelled"` (archived included)
strictly overlaps the requested range: `start < bookingEnd AND
bookingStart < end`; touching endpoints do not conflict.  Otherwise it
reports `"available"`. -/
theorem c1_overlap_strict
    (qs qe : CivilDate) (bookings : List Booking) (v : Vehicle)
    (hm : v.status ≠ "maintenance") (hq : dateLeB qs qe = true)
    (hp : ∀ b ∈ bookings, b.vehicleId = v.id → b.status ≠ "cancelled" →
      ∃ bs be, parseDate b.startDate = some bs ∧
        parseDate b.endDate = some be ∧ dateLeB bs be = true) :
    ∃ view, resolveVehicle qs qe bookings v = some view ∧
      (view.status = "booked" ∨ view.status = "available") ∧
      (view.status = "booked" ↔
        ∃ b ∈ bookings, b.vehicleId = v.id ∧ b.status ≠ "cancelled" ∧
          StrictOverlap qs qe b) := by
  have hmb : (v.status == "maintenance") = false := by
    simp [hm]
  have hmem : ∀ b : Booking,
      b ∈ bookings.filter (fun b => b.vehicleId == v.id && b.status != "cancelled") ↔
      b ∈ bookings ∧ b.vehicleId = v.id ∧ b.status ≠ "cancelled" := by
    intro b
    simp [List.mem_filter, and_assoc]
  set vbs := bookings.filter (fun b => b.vehicleId == v.id && b.status != "cancelled") with hvbs
  have hpv : ∀ b ∈ vbs, ∃ bs be, parseDate b.startDate = some bs ∧
      parseDate b.endDate = some be ∧ dateLeB bs be = true := by
    intro b hb
    obtain ⟨h1, h2, h3⟩ := (hmem b).mp hb
    exact hp b h1 h2 h3
  obtain ⟨r, hr, hiff⟩ := anyOverlap_eq_some qs qe hq vbs hpv
  have hiff' : (r = true) ↔
      ∃ b ∈ bookings, b.vehicleId = v.id ∧ b.status ≠ "cancelled" ∧ StrictOverlap qs qe b := by
    rw [hiff]
    constructor
    · rintro ⟨b, hb, hov⟩
      obtain ⟨h1, h2, h3⟩ := (hmem b).mp hb
      exact ⟨b, h1, h2, h3, hov⟩
    · rintro ⟨b, h1, h2, h3, hov⟩
      exact ⟨b, (hmem b).mpr ⟨h1, h2, h3⟩, hov⟩
  cases r with
  | false =>
    refine ⟨{ v with status := "available" }, ?_, Or.inr rfl, ?_⟩
    · simp only [resolveVehicle, hmb, Bool.false_eq_true, if_false, ← hvbs, hr]
    · simp only [show ("available" : String) ≠ "booked" by decide, false_iff] at *
      rw [← hiff']
      simp
  | true =>
    obtain ⟨b0, hb0, _⟩ := hiff.mp rfl
    have hvne : vbs ≠ [] := by
      intro hnil
      rw [hnil] at hb0
      exact absurd hb0 (List.not_mem_nil b0)
    obtain ⟨es, hes, hlen⟩ := endDates_eq_some vbs (fun b hb => by
      obtain ⟨bs, be, hbs, hbe, hord⟩ := hpv b hb
      rw [hbe]
      rfl)
    have hene : es ≠ [] := by
      intro hnil
      apply hvne
      rw [hnil] at hlen
      exact List.length_eq_zero.mp hlen.symm
    obtain ⟨m, hmax⟩ := maxDate_eq_some es hene
    refine ⟨{ v with status := "booked", nextAvailableDate := some (formatDate (nextDay m)) }, ?_, Or.inl rfl, ?_⟩
    · simp only [resolveVehicle, hmb, Bool.false_eq_true, if_false, ← hvbs, hr, hes, hmax]
    · simpa using hiff'.mp rfl

/-! ## Claim C2 — the expiry sweep

The sweep compares the raw `endDate` string against the formatted today
string with JS `<`.  The next lemmas show that on `"yyyy-MM-dd"` data this
code-unit comparison agrees with calendar-date order, which is what the
spec's "strictly before today's calendar date" means. -/

/-- Code units of decimal digit characters. -/
theorem digitChar_toNat : ∀ v < 10, (Nat.digitChar v).toNat = 48 + v := by decide

/-- Equal leading characters do not decide a string comparison. -/
theorem strLtAux_cons_same (a : Char) (r s : List Char) :
    strLtAux (a :: r) (a :: s) = strLtAux r s := by
  simp [strLtAux]

/-- A pair of digit characters on each side compares like the two-digit
numbers they spell. -/
theorem strLtAux_digits2 (a1 a2 b1 b2 : Char) (r s : List Char)
    (h1 : 48 ≤ a1.toNat) (h2 : a1.toNat ≤ 57) (h3 : 48 ≤ a2.toNat) (h4 : a2.toNat ≤ 57)
    (h5 : 48 ≤ b1.toNat) (h6 : b1.toNat ≤ 57) (h7 : 48 ≤ b2.toNat) (h8 : b2.toNat ≤ 57) :
    strLtAux (a1 :: a2 :: r) (b1 :: b2 :: s) =
      (if digitVal a1 * 10 + digitVal a2 < digitVal b1 * 10 + digitVal b2 then true
       else if digitVal b1 * 10 + digitVal b2 < digitVal a1 * 10 + digitVal a2 then false
       else strLtAux r s) := by
  simp only [strLtAux, digitVal]
  split_ifs <;> first | rfl | omega

/-- Against the zero-padded rendering of `n < 100`, a digit pair compares
like the numbers. -/
theorem strLtAux_digits2_format (a1 a2 : Char) (n : Nat) (r s : List Char)
    (h1 : 48 ≤ a1.toNat) (h2 : a1.toNat ≤ 57) (h3 : 48 ≤ a2.toNat) (h4 : a2.toNat ≤ 57)
    (hn : n < 100) :
    strLtAux (a1 :: a2 :: r) (toDigits2 n ++ s) =
      (if digitVal a1 * 10 + digitVal a2 < n then true
       else if n < digitVal a1 * 10 + digitVal a2 then false
       else strLtAux r s) := by
  have hq : (Nat.digitChar (n / 10)).toNat = 48 + n / 10 := digitChar_toNat _ (by omega)
  have hr : (Nat.digitChar (n % 10)).toNat = 48 + n % 10 := digitChar_toNat _ (by omega)
  have e1 : digitVal (Nat.digitChar (n / 10)) = n / 10 := by simp [digitVal, hq]
  have e2 : digitVal (Nat.digitChar (n % 10)) = n % 10 := by simp [digitVal, hr]
  rw [show toDigits2 n ++ s = Nat.digitChar (n / 10) :: Nat.digitChar (n % 10) :: s from rfl]
  rw [strLtAux_digits2 a1 a2 _ _ r s h1 h2 h3 h4 (by omega) (by omega) (by omega) (by omega)]
  rw [e1, e2]
  have hd : n / 10 * 10 + n % 10 = n := by omega
  rw [hd]

/-- Shape of a successfully parsed `"yyyy-MM-dd"` char list: ten characters,
dashes in place, digits elsewhere, components as spelled. -/
theorem parseDateChars_shape (l : List Char) (e : CivilDate)
    (h : parseDateChars l = some e) :
    ∃ c1 c2 c3 c4 c5 c6 c7 c8,
      l = [c1, c2, c3, c4, '-', c5, c6, '-', c7, c8] ∧
      ((48 ≤ c1.toNat ∧ c1.toNat ≤ 57) ∧ (48 ≤ c2.toNat ∧ c2.toNat ≤ 57) ∧
       (48 ≤ c3.toNat ∧ c3.toNat ≤ 57) ∧ (48 ≤ c4.toNat ∧ c4.toNat ≤ 57) ∧
       (48 ≤ c5.toNat ∧ c5.toNat ≤ 57) ∧ (48 ≤ c6.toNat ∧ c6.toNat ≤ 57) ∧
       (48 ≤ c7.toNat ∧ c7.toNat ≤ 57) ∧ (48 ≤ c8.toNat ∧ c8.toNat ≤ 57)) ∧
      e.y = digitVal c1 * 1000 + digitVal c2 * 100 + digitVal c3 * 10 + digitVal c4 ∧
      e.m = digitVal c5 * 10 + digitVal c6 ∧
      e.d = digitVal c7 * 10 + digitVal c8 := by
  match l with
  | [] => simp [parseDateChars] at h
  | [c1] => simp [parseDateChars] at h
  | [c1, c2] => simp [parseDateChars] at h
  | [c1, c2, c3] => simp [parseDateChars] at h
  | [c1, c2, c3, c4] => simp [parseDateChars] at h
  | [c1, c2, c3, c4, d1] => simp [parseDateChars] at h
  | [c1, c2, c3, c4, d1, c5] => simp [parseDateChars] at h
  | [c1, c2, c3, c4, d1, c5, c6] => simp [parseDateChars] at h
  | [c1, c2, c3, c4, d1, c5, c6, d2] => simp [parseDateChars] at h
  | [c1, c2, c3, c4, d1, c5, c6, d2, c7] => simp [parseDateChars] at h
  | c1 :: c2 :: c3 :: c4 :: d1 :: c5 :: c6 :: d2 :: c7 :: c8 :: c9 :: rest =>
    simp [parseDateChars] at h
  | [c1, c2, c3, c4, d1, c5, c6, d2, c7, c8] =>
    simp only [parseDateChars] at h
    split_ifs at h with hc hv
    · have hc' := hc
      simp only [Bool.and_eq_true, beq_iff_eq, isDigitB, decide_eq_true_eq] at hc'
      obtain ⟨⟨⟨⟨⟨⟨⟨⟨⟨hd1, hd2⟩, g1⟩, g2⟩, g3⟩, g4⟩, g5⟩, g6⟩, g7⟩, g8⟩ := hc'
      cases Option.some_inj.mp h
      refine ⟨c1, c2, c3, c4, c5, c6, c7, c8, ?_, ?_, rfl, rfl, rfl⟩
      · rw [hd1, hd2]
      · exact ⟨⟨g1.1, g1.2⟩, ⟨g2.1, g2.2⟩, ⟨g3.1, g3.2⟩, ⟨g4.1, g4.2⟩,
               ⟨g5.1, g5.2⟩, ⟨g6.1, g6.2⟩, ⟨g7.1, g7.2⟩, ⟨g8.1, g8.2⟩⟩

/-- `dateLtB` spelled out as a proposition. -/
theorem dateLtB_eq_true_iff (a b : CivilDate) :
    dateLtB a b = true ↔
      (a.y < b.y ∨ (a.y = b.y ∧ (a.m < b.m ∨ (a.m = b.m ∧ a.d < b.d)))) := by
  unfold dateLtB
  split_ifs <;> simp <;> omega

/-- On `"yyyy-MM-dd"` data, JS code-unit string comparison agrees with
calendar order: a parsed date strictly before a valid `today` makes the raw
string JS-`<` the formatted today string. -/
theorem strLt_formatDate_of_parse (s : String) (e t : CivilDate)
    (hp : parseDate s = some e) (ht : t.validB = true) (hy : t.y < 10000)
    (hlt : dateLtB e t = true) : strLt s (formatDate t) = true := by
  obtain ⟨c1, c2, c3, c4, c5, c6, c7, c8, hl, hdig, hey, hem, hed⟩ :=
    parseDateChars_shape s.data e hp
  obtain ⟨⟨a1, a2⟩, ⟨b1, b2⟩, ⟨d1, d2⟩, ⟨e1, e2⟩, ⟨f1, f2⟩, ⟨g1, g2⟩, ⟨i1, i2⟩, ⟨j1, j2⟩⟩ := hdig
  have hvp : ((1 ≤ t.m ∧ t.m ≤ 12) ∧ 1 ≤ t.d) ∧ t.d ≤ daysInMonth t.y t.m := by
    simpa [CivilDate.validB] using ht
  obtain ⟨⟨⟨hm1, hm2⟩, hdd1⟩, hdd2⟩ := hvp
  have hlt' := (dateLtB_eq_true_iff e t).mp hlt
  have hform : (formatDate t).data =
      toDigits2 (t.y / 100) ++ (toDigits2 (t.y % 100) ++
        ('-' :: (toDigits2 t.m ++ '-' :: (toDigits2 t.d ++ ([] : List Char))))) := by
    simp [formatDate, toDigits4]
  rw [strLt, hl, hform]
  rw [strLtAux_digits2_format c1 c2 (t.y / 100) _ _ a1 a2 b1 b2 (by omega)]
  rw [strLtAux_digits2_format c3 c4 (t.y % 100) _ _ d1 d2 e1 e2 (by omega)]
  rw [strLtAux_cons_same]
  rw [strLtAux_digits2_format c5 c6 t.m _ _ f1 f2 g1 g2 (by omega)]
  rw [strLtAux_cons_same]
  rw [strLtAux_digits2_format c7 c8 t.d _ _ i1 i2 j1 j2 ?hd]
  case hd =>
    have : daysInMonth t.y t.m ≤ 31 := by
      unfold daysInMonth
      split_ifs <;> omega
    omega
  simp only [digitVal] at *
  split_ifs <;> first | rfl | omega

/-- C2: after a read that returns bookings (`getBookings`; `getVehicles` and
`getStats` run the same `updateExpiredBookings` sweep first), every booking
that was confirmed with `endDate` strictly before today's calendar date
appears with status `"completed"`, and the sweep changes no field other than
`status` on any booking. -/
theorem c2_sweep_completes_expired
    (st : StorageState) (today : CivilDate) (b : Booking) (e : CivilDate)
    (hv : today.validB = true) (hy : today.y < 10000)
    (hb : b ∈ st.bookings) (hs : b.status = "confirmed")
    (hp : parseDate b.endDate = some e) (hlt : dateLtB e today = true) :
    sweepBooking (formatDate today) b = { b with status := "completed" } ∧
    { b with status := "completed" } ∈ (getBookings st (formatDate today)).2 ∧
    ∀ (t' : String) (x : Booking),
      (sweepBooking t' x).id = x.id ∧
      (sweepBooking t' x).vehicleId = x.vehicleId ∧
      (sweepBooking t' x).guestName = x.guestName ∧
      (sweepBooking t' x).guestPhone = x.guestPhone ∧
      (sweepBooking t' x).startDate = x.startDate ∧
      (sweepBooking t' x).endDate = x.endDate ∧
      (sweepBooking t' x).totalPrice = x.totalPrice ∧
      (sweepBooking t' x).idVerified = x.idVerified ∧
      (sweepBooking t' x).idImageUrl = x.idImageUrl := by
  have hstr : strLt b.endDate (formatDate today) = true :=
    strLt_formatDate_of_parse b.endDate e today hp hv hy hlt
  have h1 : sweepBooking (formatDate today) b = { b with status := "completed" } := by
    simp [sweepBooking, hs, hstr]
  refine ⟨h1, ?_, ?_⟩
  · show { b with status := "completed" } ∈
      (st.bookings.map (sweepBooking (formatDate today)))
    exact List.mem_map.mpr ⟨b, hb, h1⟩
  · intro t' x
    by_cases hc : (x.status == "confirmed" && strLt x.endDate t') = true
    · simp [sweepBooking, hc]
    · simp [sweepBooking, hc]

/-- C2 witness: a confirmed March booking on 2024-03-20. -/
theorem c2_sweep_completes_expired_witness :
    (⟨2024, 3, 20⟩ : CivilDate).validB = true ∧
    (2024 : Nat) < 10000 ∧
    bConfirmedMar ∈ (⟨[vAvail], [bConfirmedMar]⟩ : StorageState).bookings ∧
    bConfirmedMar.status = "confirmed" ∧
    parseDate bConfirmedMar.endDate = some ⟨2024, 3, 15⟩ ∧
    dateLtB ⟨2024, 3, 15⟩ ⟨2024, 3, 20⟩ = true ∧
    ({ bConfirmedMar with status := "completed" } ∈
      (getBookings ⟨[vAvail], [bConfirmedMar]⟩ (formatDate ⟨2024, 3, 20⟩)).2) :=
  ⟨by decide, by decide, by decide, by decide, by decide, by decide,
   (c2_sweep_completes_expired ⟨[vAvail], [bConfirmedMar]⟩ ⟨2024, 3, 20⟩
     bConfirmedMar ⟨2024, 3, 15⟩ (by decide) (by decide) (by decide) (by decide)
     (by decide) (by decide)).2.1⟩

/-! ## Claim C3 — archived bookings and overlap detection -/

/-- C3 failing input: the resolver filters only on `status !== 'cancelled'`,
so a lone soft-deleted (`"archived"`) booking `[2024-06-01, 2024-06-10]`
makes the vehicle report `"booked"` for the query `[2024-06-03,
2024-06-05]` — the claim says archived bookings can never cause that. -/
theorem c3_archived_blocks_availability :
    (getVehiclesRanged ⟨[vAvail], [bArchivedJun]⟩ "2024-06-02"
        ⟨2024, 6, 3⟩ ⟨2024, 6, 5⟩).2 =
      some [{ vAvail with status := "booked",
                          nextAvailableDate := some "2024-06-11" }] := rfl

/-! ## Claim C4 — archived bookings in `getStats` -/

/-- C4 failing input: the server `getStats` drops only cancelled and
completed bookings, so an archived booking `[2024-06-01, 2024-06-03]`
spanning today 2024-06-02 is counted in `rentedToday` and its price in
`revenueToday` — the claim (and the client-side copies of this aggregation)
exclude archived. -/
theorem c4_archived_counted_in_stats :
    (getStats ⟨[vAvail], [{ bArchivedJun with endDate := "2024-06-03" }]⟩
        ⟨2024, 6, 2⟩).2 =
      { totalCars := 1, rentedToday := 1, revenueToday := 4500,
        monthlyRevenue := 0 } := rfl

/-! ## Claim C5 — nextAvailableDate over archived bookings -/

/-- C5 failing input: with a confirmed booking `[2024-06-01, 2024-06-05]`
overlapping the query `[2024-06-02, 2024-06-03]` and an archived booking
ending 2024-06-20, the code's `nextAvailableDate` is `"2024-06-21"` (max
over all non-cancelled bookings, archived included); the claim's max over
non-cancelled/non-archived bookings would give `"2024-06-06"`. -/
theorem c5_archived_shifts_next_available :
    (getVehiclesRanged ⟨[vAvail], [bConfirmedJun, bArchivedJunLate]⟩
        "2024-06-01" ⟨2024, 6, 2⟩ ⟨2024, 6, 3⟩).2 =
      some [{ vAvail with status := "booked",
                          nextAvailableDate := some "2024-06-21" }] := rfl

/-! ## Claim C6 — the sweep never touches pending bookings -/

/-- C6: a booking whose status is `"pending"` or `"pending_id_missing"`,
even with `endDate` strictly before today, passes through the sweep (and
hence every read) completely unchanged. -/
theorem c6_sweep_skips_pending
    (st : StorageState) (today : CivilDate) (b : Booking) (e : CivilDate)
    (hb : b ∈ st.bookings)
    (hs : b.status = "pending" ∨ b.status = "pending_id_missing")
    (_hp : parseDate b.endDate = some e) (_hlt : dateLtB e today = true) :
    sweepBooking (formatDate today) b = b ∧
    b ∈ (getBookings st (formatDate today)).2 := by
  have h1 : sweepBooking (formatDate today) b = b := by
    rcases hs with hs | hs <;> simp [sweepBooking, hs]
  refine ⟨h1, ?_⟩
  show b ∈ st.bookings.map (sweepBooking (formatDate today))
  exact List.mem_map.mpr ⟨b, hb, h1⟩

/-- C6 witness: a pending booking long past its end date on 2024-03-20. -/
theorem c6_sweep_skips_pending_witness :
    ({ bConfirmedMar with status := "pending" } ∈
      (⟨[vAvail], [{ bConfirmedMar with status := "pending" }]⟩ : StorageState).bookings) ∧
    ({ bConfirmedMar with status := "pending" }).status = "pending" ∧
    parseDate ({ bConfirmedMar with status := "pending" }).endDate = some ⟨2024, 3, 15⟩ ∧
    dateLtB ⟨2024, 3, 15⟩ ⟨2024, 3, 20⟩ = true ∧
    sweepBooking (formatDate ⟨2024, 3, 20⟩) { bConfirmedMar with status := "pending" } =
      { bConfirmedMar with status := "pending" } :=
  ⟨by decide, by decide, by decide, by decide,
   (c6_sweep_skips_pending ⟨[vAvail], [{ bConfirmedMar with status := "pending" }]⟩
     ⟨2024, 3, 20⟩ { bConfirmedMar with status := "pending" } ⟨2024, 3, 15⟩
     (by decide) (Or.inl (by decide)) (by decide) (by decide)).1⟩

/-- C1 witness: the amended characterization at the well-ordered query
`[2024-03-12, 2024-03-20]` against the confirmed March booking. -/
theorem c1_overlap_strict_witness :
    vAvail.status ≠ "maintenance" ∧
    dateLeB ⟨2024, 3, 12⟩ ⟨2024, 3, 20⟩ = true ∧
    parseDate bConfirmedMar.startDate = some ⟨2024, 3, 10⟩ ∧
    parseDate bConfirmedMar.endDate = some ⟨2024, 3, 15⟩ ∧
    dateLeB ⟨2024, 3, 10⟩ ⟨2024, 3, 15⟩ = true ∧
    (∃ view, resolveVehicle ⟨2024, 3, 12⟩ ⟨2024, 3, 20⟩ [bConfirmedMar] vAvail = some view ∧
      (view.status = "booked" ∨ view.status = "available") ∧
      (view.status = "booked" ↔
        ∃ b ∈ [bConfirmedMar], b.vehicleId = vAvail.id ∧ b.status ≠ "cancelled" ∧
          StrictOverlap ⟨2024, 3, 12⟩ ⟨2024, 3, 20⟩ b)) :=
  ⟨by decide, by decide, by decide, by decide, by decide,
   c1_overlap_strict ⟨2024, 3, 12⟩ ⟨2024, 3, 20⟩ [bConfirmedMar] vAvail
     (by decide) (by decide)
     (fun b hb _ _ => by
       have hbe : b = bConfirmedMar := by simpa using hb
       subst hbe
       exact ⟨⟨2024, 3, 10⟩, ⟨2024, 3, 15⟩, by decide, by decide, by decide⟩)⟩

/-! ## Claim C7 — updates are not validated -/

/-- `find?` returns the unique element satisfying the predicate. -/
theorem find?_eq_some_of_unique {α : Type} (p : α → Bool) (l : List α) (a : α)
    (ha : a ∈ l) (hpa : p a = true) (huniq : ∀ x ∈ l, p x = true → x = a) :
    l.find? p = some a := by
  induction l with
  | nil => exact absurd ha (List.not_mem_nil a)
  | cons x l ih =>
    by_cases hx : p x = true
    · rw [List.find?_cons_of_pos _ hx]
      rw [huniq x (by simp) hx]
    · rw [List.find?_cons_of_neg _ hx]
      rcases List.mem_cons.mp ha with rfl | hal
      · exact absurd hpa hx
      · exact ih hal (fun y hy => huniq y (by simp [hy]))

/-- The patch that the claim says must be rejected: an out-of-enum status
together with a negative price. -/
def badBookingPatch : BookingPatch :=
  { status := some "bogus", totalPrice := some (-5) }

/-- C7 counterexample.  The claim says `updateBooking` fails with
`ValidationError` on an unknown status or negative price and leaves the
store unchanged.  The code performs no validation: the update succeeds,
returns the merged record, and persists it. -/
theorem c7_counterexample :
    (updateBooking ⟨[vAvail], [bConfirmedMar]⟩ "b1" badBookingPatch).2 =
      some { bConfirmedMar with status := "bogus", totalPrice := -5 } ∧
    (updateBooking ⟨[vAvail], [bConfirmedMar]⟩ "b1" badBookingPatch).1.bookings =
      [{ bConfirmedMar with status := "bogus", totalPrice := -5 }] :=
  ⟨rfl, rfl⟩

/-- C7 (amended): `updateBooking` and `updateVehicle` perform no validation
at all.  Any patch — including one setting a status outside the recognized
enum or a negative `totalPrice`/`dailyRate` — is merged verbatim into the
stored record and persisted; the only failure mode is an unknown id, which
returns no record and leaves the store unchanged. -/
theorem c7_update_no_validation :
    (∀ (st : StorageState) (id : String) (p : BookingPatch) (b : Booking)
        (s : String) (n : Int),
      b ∈ st.bookings → b.id = id → (∀ x ∈ st.bookings, x.id = id → x = b) →
      p.status = some s → p.totalPrice = some n →
      (updateBooking st id p).2 = some (applyBookingPatch b p) ∧
      (applyBookingPatch b p).status = s ∧
      (applyBookingPatch b p).totalPrice = n ∧
      applyBookingPatch b p ∈ (updateBooking st id p).1.bookings) ∧
    (∀ (st : StorageState) (id : String) (p : BookingPatch),
      (∀ x ∈ st.bookings, x.id ≠ id) → updateBooking st id p = (st, none)) ∧
    (∀ (st : StorageState) (id : String) (q : VehiclePatch) (v : Vehicle)
        (s : String) (r : Int),
      v ∈ st.vehicles → v.id = id → (∀ x ∈ st.vehicles, x.id = id → x = v) →
      q.status = some s → q.dailyRate = some r →
      (updateVehicle st id q).2 = some (applyVehiclePatch v q) ∧
      (applyVehiclePatch v q).status = s ∧
      (applyVehiclePatch v q).dailyRate = r ∧
      applyVehiclePatch v q ∈ (updateVehicle st id q).1.vehicles) ∧
    (∀ (st : StorageState) (id : String) (q : VehiclePatch),
      (∀ x ∈ st.vehicles, x.id ≠ id) → updateVehicle st id q = (st, none)) := by
  refine ⟨?_, ?_, ?_, ?_⟩
  · intro st id p b s n hb hid huniq hs hn
    have hfind : st.bookings.find? (fun x => x.id == id) = some b := by
      apply find?_eq_some_of_unique _ _ _ hb (by simp [hid])
      intro x hx hpx
      exact huniq x hx (by simpa using hpx)
    refine ⟨?_, ?_, ?_, ?_⟩
    · simp [updateBooking, hfind]
    · simp [applyBookingPatch, hs]
    · simp [applyBookingPatch, hn]
    · simp only [updateBooking, hfind]
      exact List.mem_map.mpr ⟨b, hb, by simp [hid]⟩
  · intro st id p hnone
    have hfind : st.bookings.find? (fun x => x.id == id) = none := by
      rw [List.find?_eq_none]
      intro x hx
      simp [hnone x hx]
    simp [updateBooking, hfind]
  · intro st id q v s r hv hid huniq hs hr
    have hfind : st.vehicles.find? (fun x => x.id == id) = some v := by
      apply find?_eq_some_of_unique _ _ _ hv (by simp [hid])
      intro x hx hpx
      exact huniq x hx (by simpa using hpx)
    refine ⟨?_, ?_, ?_, ?_⟩
    · simp [updateVehicle, hfind]
    · simp [applyVehiclePatch, hs]
    · simp [applyVehiclePatch, hr]
    · simp only [updateVehicle, hfind]
      exact List.mem_map.mpr ⟨v, hv, by simp [hid]⟩
  · intro st id q hnone
    have hfind : st.vehicles.find? (fun x => x.id == id) = none := by
      rw [List.find?_eq_none]
      intro x hx
      simp [hnone x hx]
    simp [updateVehicle, hfind]

/-- C7 witness: the amended statement applied to the bogus patch on the
concrete store. -/
theorem c7_update_no_validation_witness :
    bConfirmedMar ∈ (⟨[vAvail], [bConfirmedMar]⟩ : StorageState).bookings ∧
    bConfirmedMar.id = "b1" ∧
    badBookingPatch.status = some "bogus" ∧
    badBookingPatch.totalPrice = some (-5) ∧
    ((updateBooking ⟨[vAvail], [bConfirmedMar]⟩ "b1" badBookingPatch).2 =
        some (applyBookingPatch bConfirmedMar badBookingPatch) ∧
      (applyBookingPatch bConfirmedMar badBookingPatch).status = "bogus" ∧
      (applyBookingPatch bConfirmedMar badBookingPatch).totalPrice = -5 ∧
      applyBookingPatch bConfirmedMar badBookingPatch ∈
        (updateBooking ⟨[vAvail], [bConfirmedMar]⟩ "b1" badBookingPatch).1.bookings) :=
  ⟨by decide, by decide, by decide, by decide,
   c7_update_no_validation.1 ⟨[vAvail], [bConfirmedMar]⟩ "b1" badBookingPatch
     bConfirmedMar "bogus" (-5) (by decide) (by decide) (by decide) rfl rfl⟩

/-! ## Claim C8 — persisted vehicle status values -/

/-- An `InsertVehicle` asking for the computed status `"booked"`. -/
def insBooked : InsertVehicle :=
  { model := "Honda City"
    plate := "XYZ 5678"
    dailyRate := 1800
    transmission := "auto"
    colorHex := "#10B981"
    status := some "booked"
    imageUrl := "img"
    rateType := "24hr" }

/-- C8 counterexample.  The claim says `"booked"` is never written to the
backing store.  `createVehicle` persists whatever status the caller
supplies (`vehicle.status || "available"`), so a caller-provided
`"booked"` is stored verbatim; `updateVehicle` likewise merges a supplied
status into the record unconditionally. -/
theorem c8_counterexample :
    ((createVehicle ⟨[], []⟩ "v9" insBooked).1.vehicles.map Vehicle.status) =
      ["booked"] ∧
    ((updateVehicle ⟨[vAvail], []⟩ "v1"
        { status := some "booked" }).1.vehicles.map Vehicle.status) = ["booked"] :=
  ⟨rfl, rfl⟩

/-- C8 (amended): the resolver (`getVehicles`, ranged or not) never mutates
the persisted vehicle records at all, and `deleteVehicle` preserves the
status invariant unconditionally; `createVehicle` and `updateVehicle`
preserve the invariant exactly when the caller-supplied status (if any) is
itself `"available"`/`"maintenance"` (or empty/omitted on create, which
defaults to `"available"`) — the store itself never computes and writes
`"booked"`, but it does not reject it either. -/
theorem c8_status_invariant :
    (∀ (st : StorageState) (t : String) (qs qe : CivilDate),
      (getVehiclesRanged st t qs qe).1.vehicles = st.vehicles) ∧
    (∀ (st : StorageState) (t : String),
      (getVehiclesNoRange st t).1.vehicles = st.vehicles) ∧
    (∀ (st : StorageState) (id : String),
      (∀ v ∈ st.vehicles, v.status = "available" ∨ v.status = "maintenance") →
      ∀ v ∈ (deleteVehicle st id).1.vehicles,
        v.status = "available" ∨ v.status = "maintenance") ∧
    (∀ (st : StorageState) (id : String) (nv : InsertVehicle),
      (∀ v ∈ st.vehicles, v.status = "available" ∨ v.status = "maintenance") →
      (nv.status = none ∨ nv.status = some "" ∨ nv.status = some "available" ∨
        nv.status = some "maintenance") →
      ∀ v ∈ (createVehicle st id nv).1.vehicles,
        v.status = "available" ∨ v.status = "maintenance") ∧
    (∀ (st : StorageState) (id : String) (p : VehiclePatch),
      (∀ v ∈ st.vehicles, v.status = "available" ∨ v.status = "maintenance") →
      (p.status = none ∨ p.status = some "available" ∨ p.status = some "maintenance") →
      ∀ v ∈ (updateVehicle st id p).1.vehicles,
        v.status = "available" ∨ v.status = "maintenance") := by
  refine ⟨fun st t qs qe => rfl, fun st t => rfl, ?_, ?_, ?_⟩
  · intro st id hinv v hv
    exact hinv v (List.mem_of_mem_filter hv)
  · intro st id nv hinv hst v hv
    rcases List.mem_append.mp hv with hl | hr
    · exact hinv v hl
    · have hveq := List.mem_singleton.mp hr
      subst hveq
      rcases hst with h | h | h | h <;> simp [createVehicle, h]
  · intro st id p hinv hst v hv
    simp only [updateVehicle] at hv
    cases hfind : st.vehicles.find? (fun x => x.id == id) with
    | none =>
      rw [hfind] at hv
      exact hinv v hv
    | some v0 =>
      rw [hfind] at hv
      simp only at hv
      obtain ⟨x, hx, hxe⟩ := List.mem_map.mp hv
      by_cases hxid : (x.id == id) = true
      · rw [if_pos hxid] at hxe
        subst hxe
        have hv0 : v0 ∈ st.vehicles := List.mem_of_find?_eq_some hfind
        rcases hst with h | h | h
        · simpa [applyVehiclePatch, h] using hinv v0 hv0
        · simp [applyVehiclePatch, h]
        · simp [applyVehiclePatch, h]
      · rw [if_neg hxid] at hxe
        subst hxe
        exact hinv x hx

/-- C8 witness: creating a vehicle with an omitted status on a store that
satisfies the invariant keeps the invariant. -/
theorem c8_status_invariant_witness :
    (∀ v ∈ (⟨[vAvail], []⟩ : StorageState).vehicles,
      v.status = "available" ∨ v.status = "maintenance") ∧
    (({ insBooked with status := none } : InsertVehicle).status = none ∨
      ({ insBooked with status := none } : InsertVehicle).status = some "" ∨
      ({ insBooked with status := none } : InsertVehicle).status = some "available" ∨
      ({ insBooked with status := none } : InsertVehicle).status = some "maintenance") ∧
    ∀ v ∈ (createVehicle ⟨[vAvail], []⟩ "v9" { insBooked with status := none }).1.vehicles,
      v.status = "available" ∨ v.status = "maintenance" :=
  ⟨by decide, Or.inl (by decide),
   c8_status_invariant.2.2.2.1 ⟨[vAvail], []⟩ "v9" { insBooked with status := none }
     (by decide) (Or.inl (by decide))⟩

/-! ## Claim C10 — date-parse failures in `getStats` -/

/-- The sweep never changes a booking's start date. -/
theorem sweepBooking_startDate (t : String) (b : Booking) :
    (sweepBooking t b).startDate = b.startDate := by
  by_cases hc : (b.status == "confirmed" && strLt b.endDate t) = true <;>
    simp [sweepBooking, hc]

/-- The sweep never changes a booking's end date. -/
theorem sweepBooking_endDate (t : String) (b : Booking) :
    (sweepBooking t b).endDate = b.endDate := by
  by_cases hc : (b.status == "confirmed" && strLt b.endDate t) = true <;>
    simp [sweepBooking, hc]

/-- Both dates of the booking parse. -/
def statsParsableB (b : Booking) : Bool :=
  (parseDate b.startDate).isSome && (parseDate b.endDate).isSome

/-- The end date of the booking parses. -/
def endParsableB (b : Booking) : Bool := (parseDate b.endDate).isSome

/-- A booking with an unparsable date is never counted as active today
(the `try`/`catch` in the filter returns `false`). -/
theorem isActiveToday_sweep_unparsable (today : CivilDate) (t : String) (b : Booking)
    (h : (parseDate b.startDate).isSome = false ∨ (parseDate b.endDate).isSome = false) :
    isActiveToday today (sweepBooking t b) = false := by
  unfold isActiveToday
  rw [sweepBooking_startDate, sweepBooking_endDate]
  rcases h with h | h
  · cases hps : parseDate b.startDate with
    | none => cases hpe : parseDate b.endDate <;> split <;> rfl
    | some x => rw [hps] at h; simp at h
  · cases hpe : parseDate b.endDate with
    | none => cases hps : parseDate b.startDate <;> split <;> rfl
    | some x => rw [hpe] at h; simp at h

/-- A booking with an unparsable end date is never counted in the monthly
revenue (only the end date is parsed there). -/
theorem isMonthlyCompleted_sweep_unparsable (today : CivilDate) (t : String) (b : Booking)
    (h : (parseDate b.endDate).isSome = false) :
    isMonthlyCompleted today (sweepBooking t b) = false := by
  unfold isMonthlyCompleted
  rw [sweepBooking_endDate]
  cases hpe : parseDate b.endDate with
  | none => split <;> rfl
  | some x => rw [hpe] at h; simp at h

/-- Bookings the filter is guaranteed to drop can be removed before the
sweep without changing the filtered list. -/
theorem filter_map_sweep_eq (t : String) (pred keep : Booking → Bool)
    (hkeep : ∀ b, keep b = false → pred (sweepBooking t b) = false)
    (bs : List Booking) :
    (bs.map (sweepBooking t)).filter pred =
      ((bs.filter keep).map (sweepBooking t)).filter pred := by
  induction bs with
  | nil => rfl
  | cons b bs ih =>
    cases hk : keep b with
    | true =>
      simp only [List.map_cons, List.filter_cons, hk, if_true, ih]
    | false =>
      have hp := hkeep b hk
      simp only [List.map_cons, List.filter_cons, hp, hk, Bool.false_eq_true,
        if_false, ih]

/-- A completed booking with an unparsable start date but a parsable end
date in the current month: counted in `monthlyRevenue`. -/
def bUnparsableStart : Booking :=
  { bConfirmedMar with id := "b5", status := "completed", startDate := "oops",
                       endDate := "2024-06-05", totalPrice := 777 }

/-- C10 counterexample.  The claim says a booking whose `startDate` fails
to parse contributes to none of `rentedToday`, `revenueToday`,
`monthlyRevenue`.  But the monthly filter parses only `endDate`, so a
completed booking with `startDate = "oops"` still adds its 777 to
`monthlyRevenue`. -/
theorem c10_counterexample :
    (getStats ⟨[], [bUnparsableStart]⟩ ⟨2024, 6, 10⟩).2 =
      { totalCars := 0, rentedToday := 0, revenueToday := 0,
        monthlyRevenue := 777 } := rfl

/-- C10 (amended): `getStats` never propagates a date-parse error — it is
a total function of the store — and a booking with an unparsable start or
end date contributes nothing to `rentedToday`/`revenueToday`; for
`monthlyRevenue` only an unparsable END date excludes a booking (the
monthly filter never parses the start date).  Dropping exactly those
bookings leaves the aggregates unchanged. -/
theorem c10_stats_parse_policy (vs : List Vehicle) (bs : List Booking)
    (today : CivilDate) :
    (getStats ⟨vs, bs⟩ today).2.rentedToday =
      (getStats ⟨vs, bs.filter statsParsableB⟩ today).2.rentedToday ∧
    (getStats ⟨vs, bs⟩ today).2.revenueToday =
      (getStats ⟨vs, bs.filter statsParsableB⟩ today).2.revenueToday ∧
    (getStats ⟨vs, bs⟩ today).2.monthlyRevenue =
      (getStats ⟨vs, bs.filter endParsableB⟩ today).2.monthlyRevenue := by
  have hact : ∀ b : Booking, statsParsableB b = false →
      isActiveToday today (sweepBooking (formatDate today) b) = false := by
    intro b hb
    apply isActiveToday_sweep_unparsable
    by_cases h1 : (parseDate b.startDate).isSome = true
    · right
      simpa [statsParsableB, h1] using hb
    · left
      revert h1
      cases (parseDate b.startDate).isSome <;> simp
  have hmon : ∀ b : Booking, endParsableB b = false →
      isMonthlyCompleted today (sweepBooking (formatDate today) b) = false := by
    intro b hb
    exact isMonthlyCompleted_sweep_unparsable today _ b hb
  have ha := filter_map_sweep_eq (formatDate today) (isActiveToday today)
    statsParsableB hact bs
  have hm := filter_map_sweep_eq (formatDate today) (isMonthlyCompleted today)
    endParsableB hmon bs
  refine ⟨?_, ?_, ?_⟩
  · show ((bs.map (sweepBooking (formatDate today))).filter (isActiveToday today)).length =
      (((bs.filter statsParsableB).map (sweepBooking (formatDate today))).filter
        (isActiveToday today)).length
    rw [ha]
  · show ((bs.map (sweepBooking (formatDate today))).filter
        (isActiveToday today)).foldl (fun acc b => acc + b.totalPrice) 0 =
      (((bs.filter statsParsableB).map (sweepBooking (formatDate today))).filter
        (isActiveToday today)).foldl (fun acc b => acc + b.totalPrice) 0
    rw [ha]
  · show ((bs.map (sweepBooking (formatDate today))).filter
        (isMonthlyCompleted today)).foldl (fun acc b => acc + b.totalPrice) 0 =
      (((bs.filter endParsableB).map (sweepBooking (formatDate today))).filter
        (isMonthlyCompleted today)).foldl (fun acc b => acc + b.totalPrice) 0
    rw [hm]

/-! ## Claim C9 — the customer roll-up groups by normalized guest name -/

/-- Number of roll-up-eligible bookings carrying normalized key `k`. -/
def keyCountOf (k : String) (bs : List Booking) : Nat :=
  bs.countP fun b => eligibleB b && (normKey b.guestName == k)

/-- Lookup in the association-list model of the `customerMap`. -/
def lookupKey (k : String) : List (String × Customer) → Option Customer
  | [] => none
  | e :: m => if e.1 == k then some e.2 else lookupKey k m

/-- Booking total recorded for key `k` (0 when the key is absent). -/
def lookCount (k : String) (m : List (String × Customer)) : Nat :=
  match lookupKey k m with
  | some c => c.totalBookings
  | none => 0

/-- Comparator insertion preserves `countP`. -/
theorem countP_insertBy {α : Type} (le : α → α → Bool) (a : α) (l : List α)
    (p : α → Bool) : (insertBy le a l).countP p = (a :: l).countP p := by
  induction l with
  | nil => rfl
  | cons b l ih =>
    unfold insertBy
    by_cases h : le a b = true
    · rw [if_pos h]
    · rw [if_neg h]
      simp only [List.countP_cons, ih]
      omega

/-- Sorting preserves `countP`. -/
theorem countP_sortBy {α : Type} (le : α → α → Bool) (l : List α) (p : α → Bool) :
    (sortBy le l).countP p = l.countP p := by
  induction l with
  | nil => rfl
  | cons a l ih =>
    show (insertBy le a (sortBy le l)).countP p = _
    rw [countP_insertBy, List.countP_cons, ih, List.countP_cons]

/-- Comparator insertion preserves membership. -/
theorem mem_insertBy {α : Type} (le : α → α → Bool) (a x : α) (l : List α) :
    x ∈ insertBy le a l ↔ x ∈ a :: l := by
  induction l with
  | nil => simp [insertBy]
  | cons b l ih =>
    unfold insertBy
    by_cases h : le a b = true
    · rw [if_pos h]
    · rw [if_neg h]
      simp only [List.mem_cons] at ih ⊢
      tauto

/-- Sorting preserves membership. -/
theorem mem_sortBy {α : Type} (le : α → α → Bool) (x : α) (l : List α) :
    x ∈ sortBy le l ↔ x ∈ l := by
  induction l with
  | nil => simp [sortBy]
  | cons a l ih =>
    show x ∈ insertBy le a (sortBy le l) ↔ _
    rw [mem_insertBy]
    simp only [List.mem_cons, ih]


/-- Looking up the updated key after the in-place bump. -/
theorem lookupKey_map_bump_eq (key : String) (b : Booking)
    (m : List (String × Customer)) :
    lookupKey key (m.map fun e => if e.1 == key then (e.1, bumpCustomer b e.2) else e) =
      (lookupKey key m).map (bumpCustomer b) := by
  induction m with
  | nil => rfl
  | cons e m ih =>
    by_cases h : (e.1 == key) = true
    · simp only [List.map_cons, if_pos h, lookupKey, h, if_true]
      rfl
    · have h1 : (e.1 == key) = false := by revert h; cases (e.1 == key) <;> simp
      simp only [List.map_cons, h1, Bool.false_eq_true, if_false, lookupKey]
      exact ih

/-- Looking up any other key after the in-place bump. -/
theorem lookupKey_map_bump_ne (key k : String) (hk : k ≠ key) (b : Booking)
    (m : List (String × Customer)) :
    lookupKey k (m.map fun e => if e.1 == key then (e.1, bumpCustomer b e.2) else e) =
      lookupKey k m := by
  induction m with
  | nil => rfl
  | cons e m ih =>
    by_cases h : (e.1 == key) = true
    · have hek : e.1 = key := by simpa using h
      have h2 : (e.1 == k) = false := by simp [hek, Ne.symm hk]
      simp only [List.map_cons, if_pos h, lookupKey, h2, Bool.false_eq_true, if_false]
      exact ih
    · have h1 : (e.1 == key) = false := by revert h; cases (e.1 == key) <;> simp
      by_cases h3 : (e.1 == k) = true
      · simp only [List.map_cons, h1, Bool.false_eq_true, if_false, lookupKey, h3, if_true]
      · have h4 : (e.1 == k) = false := by revert h3; cases (e.1 == k) <;> simp
        simp only [List.map_cons, h1, Bool.false_eq_true, if_false, lookupKey, h4]
        exact ih

/-- The `customerMap.has(key)` test decides key presence. -/
theorem any_key_iff (key : String) (m : List (String × Customer)) :
    ((m.any fun e => e.1 == key) = true) ↔ (lookupKey key m).isSome = true := by
  induction m with
  | nil => simp [lookupKey]
  | cons e m ih =>
    by_cases h : (e.1 == key) = true
    · simp [lookupKey, h]
    · have h1 : (e.1 == key) = false := by revert h; cases (e.1 == key) <;> simp
      simp [lookupKey, h1, ih]

/-- Appending a fresh entry: lookup of a previously absent key. -/
theorem lookupKey_append_of_none (k key : String) (c : Customer)
    (m : List (String × Customer)) (h : lookupKey k m = none) :
    lookupKey k (m ++ [(key, c)]) = if key == k then some c else none := by
  induction m with
  | nil => simp [lookupKey]
  | cons e m ih =>
    by_cases h1 : (e.1 == k) = true
    · simp [lookupKey, h1] at h
    · have h2 : (e.1 == k) = false := by revert h1; cases (e.1 == k) <;> simp
      rw [lookupKey] at h
      rw [h2] at h
      simp only [Bool.false_eq_true, if_false] at h
      show lookupKey k (e :: (m ++ [(key, c)])) = _
      rw [lookupKey, h2]
      simp only [Bool.false_eq_true, if_false]
      exact ih h

/-- Appending a fresh entry: lookup of a present key is unchanged. -/
theorem lookupKey_append_of_some (k key : String) (c c' : Customer)
    (m : List (String × Customer)) (h : lookupKey k m = some c') :
    lookupKey k (m ++ [(key, c)]) = some c' := by
  induction m with
  | nil => simp [lookupKey] at h
  | cons e m ih =>
    by_cases h1 : (e.1 == k) = true
    · rw [lookupKey, h1] at h
      simp only [if_true] at h
      show lookupKey k (e :: (m ++ [(key, c)])) = _
      rw [lookupKey, h1]
      simpa using h
    · have h2 : (e.1 == k) = false := by revert h1; cases (e.1 == k) <;> simp
      rw [lookupKey, h2] at h
      simp only [Bool.false_eq_true, if_false] at h
      show lookupKey k (e :: (m ++ [(key, c)])) = _
      rw [lookupKey, h2]
      simp only [Bool.false_eq_true, if_false]
      exact ih h

/-- Entries with positive booking totals make presence equivalent to a
positive recorded total. -/
theorem lookupKey_isSome_iff_pos (k : String) (m : List (String × Customer))
    (hpos : ∀ e ∈ m, 0 < e.2.totalBookings) :
    (lookupKey k m).isSome = true ↔ 0 < lookCount k m := by
  induction m with
  | nil => simp [lookupKey, lookCount]
  | cons e m ih =>
    by_cases h : (e.1 == k) = true
    · have := hpos e (by simp)
      simp only [lookupKey, h, if_true, lookCount]
      simpa using this
    · have h1 : (e.1 == k) = false := by revert h; cases (e.1 == k) <;> simp
      simp only [lookupKey, h1, Bool.false_eq_true, if_false, lookCount]
      exact ih (fun x hx => hpos x (by simp [hx]))

/-- Under distinct keys, a member entry is what lookup returns. -/
theorem lookupKey_of_mem_nodup (k : String) (m : List (String × Customer))
    (e : String × Customer) (hnd : (m.map Prod.fst).Nodup) (he : e ∈ m)
    (hk : e.1 = k) : lookupKey k m = some e.2 := by
  induction m with
  | nil => exact absurd he (List.not_mem_nil e)
  | cons x m ih =>
    rcases List.mem_cons.mp he with rfl | hm
    · simp [lookupKey, hk]
    · have hnd' := List.nodup_cons.mp hnd
      have hxk : (x.1 == k) = false := by
        have : e.1 ∈ m.map Prod.fst := List.mem_map.mpr ⟨e, hm, rfl⟩
        rw [hk] at this
        have hne : x.1 ≠ k := fun hxe => hnd'.1 (hxe ▸ this)
        simp [hne]
      simp only [lookupKey, hxk, Bool.false_eq_true, if_false]
      exact ih hnd'.2 hm

/-- No entry carries an absent key. -/
theorem countP_key_zero_of_not_mem (k : String) (m : List (String × Customer))
    (h : k ∉ m.map Prod.fst) : (m.countP fun e => e.1 == k) = 0 := by
  induction m with
  | nil => rfl
  | cons e m ih =>
    simp only [List.map_cons, List.mem_cons, not_or] at h
    have he : (e.1 == k) = false := by simp [Ne.symm h.1]
    rw [List.countP_cons, he]
    simp [ih h.2]

/-- Under distinct keys, each key labels at most one entry. -/
theorem countP_key_of_nodup (k : String) (m : List (String × Customer))
    (hnd : (m.map Prod.fst).Nodup) :
    (m.countP fun e => e.1 == k) =
      if (lookupKey k m).isSome = true then 1 else 0 := by
  induction m with
  | nil => simp [lookupKey]
  | cons e m ih =>
    have hnd' := List.nodup_cons.mp hnd
    by_cases h : (e.1 == k) = true
    · have hek : e.1 = k := by simpa using h
      have hzero : (m.countP fun e => e.1 == k) = 0 :=
        countP_key_zero_of_not_mem k m (hek ▸ hnd'.1)
      rw [List.countP_cons, h, hzero]
      simp [lookupKey, h]
    · have h1 : (e.1 == k) = false := by revert h; cases (e.1 == k) <;> simp
      rw [List.countP_cons, h1]
      simp only [lookupKey, h1, Bool.false_eq_true, if_false]
      simpa using ih hnd'.2

/-- An absent `has(key)` test means the key labels no entry. -/
theorem not_mem_keys_of_any_false (key : String) (m : List (String × Customer))
    (h : (m.any fun e => e.1 == key) = false) : key ∉ m.map Prod.fst := by
  intro hmem
  obtain ⟨e, he, hek⟩ := List.mem_map.mp hmem
  have htrue : (m.any fun e => e.1 == key) = true :=
    List.any_eq_true.mpr ⟨e, he, by simp [hek]⟩
  rw [h] at htrue
  exact Bool.false_ne_true htrue

/-- The in-place bump keeps the key list. -/
theorem keys_map_bump (key : String) (b : Booking)
    (m : List (String × Customer)) :
    ((m.map fun e => if e.1 == key then (e.1, bumpCustomer b e.2) else e).map Prod.fst) =
      m.map Prod.fst := by
  induction m with
  | nil => rfl
  | cons e m ih =>
    by_cases h : (e.1 == key) = true
    · simp only [List.map_cons, if_pos h, ih]
    · have h1 : (e.1 == key) = false := by revert h; cases (e.1 == key) <;> simp
      simp only [List.map_cons, h1, Bool.false_eq_true, if_false, ih]

/-- Invariant of the roll-up loop: distinct keys, keys are the normalized
names, totals are positive, and the total recorded for key `k` grows by
exactly the number of eligible bookings with that key. -/
theorem rollup_aux (k : String) (bs : List Booking) :
    ∀ (m : List (String × Customer)),
      (m.map Prod.fst).Nodup →
      (∀ e ∈ m, normKey e.2.name = e.1) →
      (∀ e ∈ m, 0 < e.2.totalBookings) →
      ((bs.foldl rollupStep m).map Prod.fst).Nodup ∧
      (∀ e ∈ bs.foldl rollupStep m, normKey e.2.name = e.1) ∧
      (∀ e ∈ bs.foldl rollupStep m, 0 < e.2.totalBookings) ∧
      lookCount k (bs.foldl rollupStep m) = lookCount k m + keyCountOf k bs := by
  induction bs with
  | nil =>
    intro m h1 h2 h3
    exact ⟨h1, h2, h3, by simp [keyCountOf]⟩
  | cons b bs ih =>
    intro m h1 h2 h3
    rw [List.foldl_cons]
    have hstep : ((rollupStep m b).map Prod.fst).Nodup ∧
        (∀ e ∈ rollupStep m b, normKey e.2.name = e.1) ∧
        (∀ e ∈ rollupStep m b, 0 < e.2.totalBookings) ∧
        lookCount k (rollupStep m b) = lookCount k m +
          (if (eligibleB b && (normKey b.guestName == k)) = true then 1 else 0) := by
      by_cases he : eligibleB b = true
      · by_cases hany : (m.any fun e => e.1 == normKey b.guestName) = true
        · have hm1 : rollupStep m b =
              m.map fun e =>
                if e.1 == normKey b.guestName then (e.1, bumpCustomer b e.2) else e := by
            simp [rollupStep, he, hany]
          rw [hm1]
          refine ⟨?_, ?_, ?_, ?_⟩
          · rw [keys_map_bump]
            exact h1
          · intro e heM
            obtain ⟨x, hx, hxe⟩ := List.mem_map.mp heM
            by_cases hxk : (x.1 == normKey b.guestName) = true
            · rw [if_pos hxk] at hxe
              subst hxe
              have hx1 : x.1 = normKey b.guestName := by simpa using hxk
              simp [bumpCustomer, hx1]
            · rw [if_neg hxk] at hxe
              subst hxe
              exact h2 x hx
          · intro e heM
            obtain ⟨x, hx, hxe⟩ := List.mem_map.mp heM
            by_cases hxk : (x.1 == normKey b.guestName) = true
            · rw [if_pos hxk] at hxe
              subst hxe
              simp [bumpCustomer]
            · rw [if_neg hxk] at hxe
              subst hxe
              exact h3 x hx
          · by_cases hkk : k = normKey b.guestName
            · obtain ⟨c, hc⟩ := Option.isSome_iff_exists.mp ((any_key_iff _ m).mp hany)
              have hceq : lookupKey k m = some c := by rw [hkk]; exact hc
              have hbump :
                  lookupKey k (m.map fun e =>
                    if e.1 == normKey b.guestName then (e.1, bumpCustomer b e.2) else e) =
                    some (bumpCustomer b c) := by
                rw [hkk, lookupKey_map_bump_eq, hc]
                rfl
              have hcond : (eligibleB b && (normKey b.guestName == k)) = true := by
                simp [he, hkk]
              simp only [lookCount, hbump, hceq, hcond, if_true]
              simp [bumpCustomer]
            · have hbump :
                  lookupKey k (m.map fun e =>
                    if e.1 == normKey b.guestName then (e.1, bumpCustomer b e.2) else e) =
                    lookupKey k m :=
                lookupKey_map_bump_ne _ _ hkk b m
              have hcond : (eligibleB b && (normKey b.guestName == k)) = false := by
                have hne : normKey b.guestName ≠ k := fun h => hkk h.symm
                simp [hne]
              simp only [lookCount, hbump, hcond, Bool.false_eq_true, if_false]
              omega
        · have hanyf : (m.any fun e => e.1 == normKey b.guestName) = false := by
            revert hany
            cases (m.any fun e => e.1 == normKey b.guestName) <;> simp
          have hm1 : rollupStep m b = m ++ [(normKey b.guestName, freshCustomer b)] := by
            simp [rollupStep, he, hanyf]
          rw [hm1]
          have hnotmem := not_mem_keys_of_any_false _ m hanyf
          have hnone : lookupKey (normKey b.guestName) m = none := by
            have hiff := any_key_iff (normKey b.guestName) m
            cases hlk : lookupKey (normKey b.guestName) m with
            | none => rfl
            | some c =>
              exfalso
              apply Bool.false_ne_true
              rw [← hanyf]
              exact hiff.mpr (by simp [hlk])
          refine ⟨?_, ?_, ?_, ?_⟩
          · rw [List.map_append]
            rw [List.nodup_append]
            refine ⟨h1, by simp, ?_⟩
            intro a ha hb
            simp only [List.map_cons, List.map_nil, List.mem_singleton] at hb
            subst hb
            exact hnotmem ha
          · intro e heM
            rcases List.mem_append.mp heM with hL | hR
            · exact h2 e hL
            · have heq : e = (normKey b.guestName, freshCustomer b) := by simpa using hR
              subst heq
              simp [freshCustomer]
          · intro e heM
            rcases List.mem_append.mp heM with hL | hR
            · exact h3 e hL
            · have heq : e = (normKey b.guestName, freshCustomer b) := by simpa using hR
              subst heq
              simp [freshCustomer]
          · by_cases hkk : k = normKey b.guestName
            · have hnone' : lookupKey k m = none := by rw [hkk]; exact hnone
              have happ := lookupKey_append_of_none k (normKey b.guestName)
                (freshCustomer b) m hnone'
              have hkey : (normKey b.guestName == k) = true := by simp [hkk]
              rw [hkey] at happ
              simp only [if_true] at happ
              have hcond : (eligibleB b && (normKey b.guestName == k)) = true := by
                simp [he, hkk]
              simp only [lookCount, happ, hnone', hcond, if_true]
              simp [freshCustomer]
            · have hkey : (normKey b.guestName == k) = false := by
                have hne : normKey b.guestName ≠ k := fun h => hkk h.symm
                simp [hne]
              have hcond : (eligibleB b && (normKey b.guestName == k)) = false := by
                simp [hkey]
              cases hlk : lookupKey k m with
              | none =>
                have happ := lookupKey_append_of_none k (normKey b.guestName)
                  (freshCustomer b) m hlk
                rw [hkey] at happ
                simp only [Bool.false_eq_true, if_false] at happ
                simp only [lookCount, happ, hlk, hcond, Bool.false_eq_true, if_false]
              | some c =>
                have happ := lookupKey_append_of_some k (normKey b.guestName)
                  (freshCustomer b) c m hlk
                simp only [lookCount, happ, hlk, hcond, Bool.false_eq_true, if_false]
                omega
      · have hef : eligibleB b = false := by
          revert he
          cases eligibleB b <;> simp
        have hm1 : rollupStep m b = m := by simp [rollupStep, hef]
        rw [hm1]
        have hcond : (eligibleB b && (normKey b.guestName == k)) = false := by
          simp [hef]
        exact ⟨h1, h2, h3, by simp [hcond]⟩
    obtain ⟨s1, s2, s3, s4⟩ := hstep
    obtain ⟨t1, t2, t3, t4⟩ := ih (rollupStep m b) s1 s2 s3
    refine ⟨t1, t2, t3, ?_⟩
    rw [t4, s4]
    have hcnt : keyCountOf k (b :: bs) = keyCountOf k bs +
        (if (eligibleB b && (normKey b.guestName == k)) = true then 1 else 0) := by
      simp only [keyCountOf, List.countP_cons]
    rw [hcnt]
    by_cases hc : (eligibleB b && (normKey b.guestName == k)) = true
    · simp only [hc, if_true]
      omega
    · simp only [hc, Bool.false_eq_true, if_false]
      omega

/-- C9: the customer roll-up groups bookings by the guest name normalized by
trimming and lowercasing, counting only confirmed/completed bookings: the
directory has exactly one entry per normalized key that occurs among the
eligible bookings (none for keys that occur only on bookings in other
statuses), and that entry's `totalBookings` is the number of eligible
bookings with that key. -/
theorem c9_rollup_groups_by_normalized_name (bs : List Booking) (k : String) :
    ((customersOf bs).countP fun c => normKey c.name == k) =
      (if keyCountOf k bs = 0 then 0 else 1) ∧
    ∀ c ∈ customersOf bs, normKey c.name = k → c.totalBookings = keyCountOf k bs := by
  obtain ⟨hnd, hnames, hpos, hcount⟩ := rollup_aux k (sortBy startLe bs) []
    (by simp) (by simp) (by simp)
  have hsort : keyCountOf k (sortBy startLe bs) = keyCountOf k bs :=
    countP_sortBy startLe bs _
  have hcount' : lookCount k ((sortBy startLe bs).foldl rollupStep []) =
      keyCountOf k bs := by
    rw [hcount, hsort]
    have hz : lookCount k [] = 0 := rfl
    omega
  constructor
  · have h1 : ((customersOf bs).countP fun c => normKey c.name == k) =
        ((((sortBy startLe bs).foldl rollupStep []).map Prod.snd).countP
          fun c => normKey c.name == k) := by
      show ((sortBy lastBookingGe
        (((sortBy startLe bs).foldl rollupStep []).map Prod.snd)).countP
          fun c => normKey c.name == k) = _
      exact countP_sortBy _ _ _
    rw [h1, List.countP_map]
    have h2 : (((sortBy startLe bs).foldl rollupStep []).countP
          ((fun c => normKey c.name == k) ∘ Prod.snd)) =
        (((sortBy startLe bs).foldl rollupStep []).countP fun e => e.1 == k) := by
      apply List.countP_congr
      intro e he
      simp only [Function.comp]
      rw [hnames e he]
    rw [h2, countP_key_of_nodup k _ hnd]
    have hiff := lookupKey_isSome_iff_pos k _ hpos
    by_cases hz : keyCountOf k bs = 0
    · have hns : ¬ (lookupKey k ((sortBy startLe bs).foldl rollupStep [])).isSome = true := by
        rw [hiff, hcount', hz]
        simp
      simp [hns, hz]
    · have hs : (lookupKey k ((sortBy startLe bs).foldl rollupStep [])).isSome = true := by
        rw [hiff, hcount']
        omega
      simp [hs, hz]
  · intro c hc hck
    have hc1 : c ∈ ((sortBy startLe bs).foldl rollupStep []).map Prod.snd :=
      (mem_sortBy _ _ _).mp hc
    obtain ⟨e, heR, hesnd⟩ := List.mem_map.mp hc1
    have he1 : e.1 = k := by
      rw [← hnames e heR]
      show normKey (Prod.snd e).name = k
      rw [hesnd, hck]
    have hlook : lookupKey k ((sortBy startLe bs).foldl rollupStep []) = some e.2 :=
      lookupKey_of_mem_nodup k _ e hnd heR he1
    have hlc : lookCount k ((sortBy startLe bs).foldl rollupStep []) =
        c.totalBookings := by
      simp only [lookCount, hlook]
      rw [show e.2 = c from hesnd]
    exact hlc.symm.trans hcount'

/-- Two confirmed bookings by the "same" guest up to casing and trailing
whitespace. -/
def bJuan1 : Booking :=
  { bConfirmedMar with id := "j1", guestName := "Juan Dela Cruz",
                       startDate := "2024-03-01" }

/-- The second booking, differently cased with a trailing space. -/
def bJuan2 : Booking :=
  { bConfirmedMar with id := "j2", guestName := "juan dela cruz ",
                       startDate := "2024-03-05" }

/-- C9 witness: the two Juan bookings merge into exactly one directory
entry with `totalBookings = 2`. -/
theorem c9_rollup_groups_witness :
    keyCountOf "juan dela cruz" [bJuan1, bJuan2] = 2 ∧
    ((customersOf [bJuan1, bJuan2]).countP
      fun c => normKey c.name == "juan dela cruz") = 1 ∧
    ∀ c ∈ customersOf [bJuan1, bJuan2],
      normKey c.name = "juan dela cruz" → c.totalBookings = 2 := by
  refine ⟨by decide, ?_, ?_⟩
  · rw [(c9_rollup_groups_by_normalized_name [bJuan1, bJuan2] "juan dela cruz").1]
    decide
  · intro c hc hck
    rw [(c9_rollup_groups_by_normalized_name [bJuan1, bJuan2] "juan dela cruz").2
      c hc hck]
    decide
